import Mathlib

/-!
# Verification of `coral_reef/ml/utils.py`

A shallow embedding of the self-contained logic of the repository's
utility layer (window tiler, mask/colour codec, class-weight calculator,
rectangle geometry, checkpoint saver), together with theorems settling
the specification claims about it.

Conventions used throughout:
* machine integers are modelled as `Nat` / `Int`; numpy `uint8` storage is
  modelled by reducing the stored value modulo 256 (the silent wrap-around
  cast numpy performs on assignment into a `uint8` array);
* Python exceptions are modelled by `Option` / `Except` results;
* an image is represented by its height and width — every claim about the
  tiler concerns only the geometry (origins and slice extents) of the cut
  windows, so a cut `image[start_y:end_y, start_x:end_x]` is recorded as
  the slice rectangle `(start_y, end_y, start_x, end_x)`.
-/

/-- The slice rectangle recorded for `cuts.append(image[start_y:end_y, start_x:end_x])`
in `cut_windows` (`utils.py`, line 130). -/
structure SliceRect where
  start_y : Int
  end_y : Int
  start_x : Int
  end_x : Int
deriving DecidableEq, Repr

/-- Python `range(0, stop, step)` for a positive `step`: the values
`0, step, 2*step, …` strictly below `stop`; empty when `stop ≤ 0`. -/
def pyRange (stop : Int) (step : Nat) : List Int :=
  (List.range ((stop.toNat + step - 1) / step)).map (fun i => ((i * step : Nat) : Int))

/-- Embeds `start_points[-1][0]` guarded by `len(start_points) > 0` (`utils.py`, line 119):
`some` of the last point's x when the list is nonempty, else `none`. -/
def lastX (pts : List (Int × Int)) : Option Int :=
  pts.getLast?.map Prod.fst

/-- Embeds `start_points[-1][1]` guarded by `len(start_points) > 0` (`utils.py`, line 127). -/
def lastY (pts : List (Int × Int)) : Option Int :=
  pts.getLast?.map Prod.snd

/-- The inner `for y in range(0, h - step_size, step_size)` loop of
`cut_windows` (`utils.py`, lines 122–131), threading the accumulated
`cuts` and `start_points` lists. -/
def innerLoop (h ws start_x end_x : Int) (ys : List Int)
    (cuts : List SliceRect) (pts : List (Int × Int)) :
    List SliceRect × List (Int × Int) :=
  match ys with
  | [] => (cuts, pts)
  | y :: rest =>
    let end_y := min (y + ws) h
    let start_y := end_y - ws
    -- "stop if the current rectangle has been done before"
    if lastY pts = some start_y then (cuts, pts)
    else innerLoop h ws start_x end_x rest
      (cuts ++ [⟨start_y, end_y, start_x, end_x⟩])
      (pts ++ [(start_x, start_y)])

/-- The outer `for x in range(0, w - step_size, step_size)` loop of
`cut_windows` (`utils.py`, lines 114–131). -/
def outerLoop (h w ws : Int) (xs ys : List Int)
    (cuts : List SliceRect) (pts : List (Int × Int)) :
    List SliceRect × List (Int × Int) :=
  match xs with
  | [] => (cuts, pts)
  | x :: rest =>
    let end_x := min (x + ws) w
    let start_x := end_x - ws
    -- "stop if the current rectangle has been done before"
    if lastX pts = some start_x then (cuts, pts)
    else
      let r := innerLoop h ws start_x end_x ys cuts pts
      outerLoop h w ws rest ys r.1 r.2

/-- Embedding of `cut_windows(image, window_size, step_size)` (`utils.py`, lines 99–135).
The image enters only through its shape `(img_h, img_w)`; the default step
is `int(window_size / 2)`.  Python's `range` raises `ValueError` when the
step is `0`, modelled by `none`; otherwise the pair
`(cuts, start_points)` is returned. -/
def cut_windows (img_h img_w window_size : Nat) (step_size? : Option Nat) :
    Option (List SliceRect × List (Int × Int)) :=
  let step := step_size?.getD (window_size / 2)
  if step = 0 then none
  else some (outerLoop (img_h : Int) (img_w : Int) (window_size : Int)
    (pyRange ((img_w : Int) - (step : Int)) step)
    (pyRange ((img_h : Int) - (step : Int)) step) [] [])

/-- Normalisation of one slice bound by Python/numpy slicing on an axis of
length `n`: a negative index counts from the end, and both ends are clamped
into `[0, n]`. -/
def sliceIndex (n : Nat) (i : Int) : Nat :=
  if i < 0 then (max 0 ((n : Int) + i)).toNat else min i.toNat n

/-- Number of pixels selected by the slice `a : b` (step 1) on an axis of
length `n`, per Python slicing semantics. -/
def sliceLen (n : Nat) (a b : Int) : Nat :=
  sliceIndex n b - sliceIndex n a

example : pyRange 8 2 = [0, 2, 4, 6] := by decide
example : pyRange 2 2 = [0] := by decide
example : pyRange 0 2 = [] := by decide
example : pyRange (-3) 2 = [] := by decide
example : cut_windows 4 10 4 (some 2) = some ([⟨0, 4, 0, 4⟩], [(0, 0)]) := by decide
example : cut_windows 3 3 5 none = some ([⟨-2, 3, -2, 3⟩], [(-2, -2)]) := by decide

/-!
## Mask / colour codec

A `colour_mapping` is a Python dict `{<class_name>: <colour>}`; we model it
as an association list `List (String × Nat)`.  Every codec function first
fixes the class order by `sorted(colour_mapping.keys())`, then performs one
boolean-mask assignment per class.  A numpy assignment
`out[cond_i] = v_i`, executed for `i = 0, 1, …` in order, acts on each
pixel independently as "overwrite the accumulator with `v_i` whenever
`cond_i` holds at this pixel", so the codec functions are embedded
per pixel as the indexed overwrite fold `writeFold` below.
-/

/-- Python string comparison: lexicographic on the code points. -/
def keyLe : List Char → List Char → Bool
  | [], _ => true
  | _ :: _, [] => false
  | a :: as, b :: bs =>
    if a.toNat < b.toNat then true
    else if b.toNat < a.toNat then false
    else keyLe as bs

/-- Stable insertion of one item into a key-sorted association list. -/
def insertSorted (p : String × Nat) : List (String × Nat) → List (String × Nat)
  | [] => [p]
  | q :: rest => if keyLe p.1.data q.1.data then p :: q :: rest else q :: insertSorted p rest

/-- The list `sorted(colour_mapping.keys())` paired with the mapped colours: the
items of the mapping in ascending key order.  `enumerate` over this list
assigns the canonical class index `i`. -/
def sortedItems : List (String × Nat) → List (String × Nat)
  | [] => []
  | p :: rest => insertSorted p (sortedItems rest)

/-- One pixel's value after the sequence of numpy boolean-mask assignments
`for i, k in enumerate(sorted(mapping.keys())): out[test_i] = val_i`:
each hit of `test` overwrites the accumulator (last write wins), starting
from the `np.zeros` initial value. -/
def writeFold (test : Nat → String × Nat → Bool) (val : Nat → String × Nat → Nat) :
    Nat → List (String × Nat) → Nat → Nat
  | _, [], acc => acc
  | i, entry :: rest, acc =>
    writeFold test val (i + 1) rest (if test i entry then val i entry else acc)

/-- Embedding of `colour_mask_to_class_id_mask` (`utils.py`, lines 29–41), per pixel:
`class_id_mask[colour_mask == colour_mapping[k]] = i` into a
`np.zeros(...).astype(np.uint8)` array, so the stored index is `i % 256`. -/
def colour_mask_to_class_id_mask (mapping : List (String × Nat)) (pixel : Nat) : Nat :=
  writeFold (fun _ entry => pixel == entry.2) (fun i _ => i % 256) 0 (sortedItems mapping) 0

/-- Embedding of `class_id_mask_to_colour_mask` (`utils.py`, lines 44–56), per pixel:
`colour_mask[class_id_mask == i] = colour_mapping[k]` into a `uint8`
array, so the stored colour is `colour_mapping[k] % 256`. -/
def class_id_mask_to_colour_mask (mapping : List (String × Nat)) (pixel : Nat) : Nat :=
  writeFold (fun i _ => pixel == i) (fun _ entry => entry.2 % 256) 0 (sortedItems mapping) 0

/-- Embedding of `one_hot_to_mask` (`utils.py`, lines 59–72), per pixel: the pixel's
channel vector is `channels`, and `mask[one_hot[:, :, i] == 1] =
colour_mapping[k]` writes the class colour (as `uint8`, hence `% 256`)
whenever channel `i` equals `1`. -/
def one_hot_to_mask (mapping : List (String × Nat)) (channels : List Nat) : Nat :=
  writeFold (fun i _ => channels.getD i 0 == 1) (fun _ entry => entry.2 % 256) 0
    (sortedItems mapping) 0

example : sortedItems [("b", 2), ("a", 1)] = [("a", 1), ("b", 2)] := by decide
example : colour_mask_to_class_id_mask [("a", 300)] 300 = 0 := by decide
example : class_id_mask_to_colour_mask [("a", 300)] 0 = 44 := by decide
example : one_hot_to_mask [("a", 1), ("b", 300)] [1, 1] = 44 := by decide

/-- Position `j` of the (sorted) mapping holds an entry whose colour is
`p`.  The index of the last such position is the class id the forward
conversion stores for a pixel of colour `p`. -/
def colourHit (L : List (String × Nat)) (p : Nat) (j : Nat) : Prop :=
  ((L[j]?).any (fun e => e.2 == p)) = true

instance (L : List (String × Nat)) (p j : Nat) : Decidable (colourHit L p j) :=
  instDecidableEqBool _ _

/-!
## Class weight calculator
-/

/-- The Python exceptions this layer can raise.  `calculate_class_weights`
raises the bare `KeyError(<class name>)` coming out of `stats[c]`. -/
inductive PyError
  | keyError (key : String)
deriving DecidableEq, Repr

/-- The lookup `stats[c]["share"]` for one class: the stats file is modelled as an
association list class-name ↦ share. -/
def lookupShare (stats : List (String × ℚ)) (c : String) : Option ℚ :=
  (stats.find? (fun p => p.1 == c)).map Prod.snd

/-- The class names in canonical (sorted) order. -/
def sortedClassNames (m : List (String × Nat)) : List String :=
  (sortedItems m).map Prod.fst

/-- The list comprehension
`[stats[c]["share"] for c in sorted(colour_mapping.keys())]`
(`utils.py`, line 79): evaluated left to right, raising `KeyError(c)` at
the first class `c` absent from the stats. -/
def sharesFor (stats : List (String × ℚ)) (m : List (String × Nat)) :
    Except PyError (List ℚ) :=
  (sortedClassNames m).mapM fun c =>
    match lookupShare stats c with
    | some s => Except.ok s
    | none => Except.error (PyError.keyError c)

/-- Embedding of `calculate_class_weights` (`utils.py`, lines 75–82): the shares in
sorted class order, mapped through `1 / np.log(modifier + share)`.  The
logarithm is transcendental, so the weights live in `ℝ`. -/
noncomputable def calculate_class_weights (stats : List (String × ℚ))
    (m : List (String × Nat)) (modifier : ℝ) : Except PyError (List ℝ) :=
  (sharesFor stats m).map (List.map (fun (s : ℚ) => 1 / Real.log (modifier + (s : ℝ))))

/-!
## Rectangle geometry
-/

/-- A rectangle `[x1, y1, x2, y2]` as consumed by the geometry helpers. -/
structure Rect where
  x1 : Int
  y1 : Int
  x2 : Int
  y2 : Int
deriving DecidableEq, Repr

/-- Embedding of `calc_rect_size` (`utils.py`, lines 138–144):
`(rect[3] - rect[1]) * (rect[2] - rect[0])`. -/
def calc_rect_size (r : Rect) : Int :=
  (r.y2 - r.y1) * (r.x2 - r.x1)

/-- Embedding of `calc_intersection` (`utils.py`, lines 147–162). -/
def calc_intersection (r1 r2 : Rect) : Int :=
  let x1 := max r1.x1 r2.x1
  let y1 := max r1.y1 r2.y1
  let x2 := min r1.x2 r2.x2
  let y2 := min r1.y2 r2.y2
  if x2 < x1 ∨ y2 < y1 then 0
  else (x2 - x1) * (y2 - y1)

/-- Embedding of `calc_union` (`utils.py`, lines 165–172). -/
def calc_union (r1 r2 : Rect) : Int :=
  calc_rect_size r1 + calc_rect_size r2 - calc_intersection r1 r2

/-- Embedding of `calc_IOU` (`utils.py`, lines 175–182): true division of the two
integer areas; Python raises `ZeroDivisionError` when the union is `0`,
modelled by `none`. -/
def calc_IOU (r1 r2 : Rect) : Option ℚ :=
  if calc_union r1 r2 = 0 then none
  else some ((calc_intersection r1 r2 : ℚ) / (calc_union r1 r2 : ℚ))

example : calc_IOU ⟨0, 0, 2, 2⟩ ⟨0, 0, 2, 2⟩ = some 1 := by
  norm_num [calc_IOU, calc_intersection, calc_union, calc_rect_size]
example : calc_IOU ⟨0, 0, 0, 0⟩ ⟨0, 0, 0, 0⟩ = none := by decide

/-!
## Checkpoint saver

`Saver.save_checkpoint` (`utils.py`, lines 191–195) performs two file
operations: `torch.save(model.state_dict(), file_path)` writes the
serialized state to `folder/checkpoint_epoch_<epoch>.pt`, and — when
`is_best` — `shutil.copyfile` duplicates that file's content into
`folder/model_best.pth`.  The file system is modelled as a partial map
from paths to file contents (contents of an arbitrary type `α`).
-/

/-- A file system: path ↦ content, `none` when the file does not exist. -/
def FileSys (α : Type) := String → Option α

/-- Writing a file: the target path now holds `content`, all other paths
are untouched. -/
def writeFile {α : Type} (fs : FileSys α) (path : String) (content : α) : FileSys α :=
  fun p => if p = path then some content else fs p

/-- Embeds `shutil.copyfile(src, dst)`: `dst` now holds exactly the bytes of
`src`, all other paths are untouched. -/
def copyfile {α : Type} (fs : FileSys α) (src dst : String) : FileSys α :=
  fun p => if p = dst then fs src else fs p

/-- Embeds `os.path.join(folder, name)` for a folder without trailing slash. -/
def path_join (folder name : String) : String :=
  folder ++ "/" ++ name

/-- The file name `"checkpoint_epoch_" + str(epoch) + ".pt"` produced by format. -/
def checkpoint_name (epoch : Nat) : String :=
  "checkpoint_epoch_" ++ toString epoch ++ ".pt"

/-- Embedding of `Saver.save_checkpoint(model, is_best, epoch)` acting on the file
system: write the epoch checkpoint, then — if `is_best` — copy it over
`model_best.pth`. -/
def save_checkpoint {α : Type} (folder : String) (state : α) (is_best : Bool)
    (epoch : Nat) (fs : FileSys α) : FileSys α :=
  let file_path := path_join folder (checkpoint_name epoch)
  let fs1 := writeFile fs file_path state
  if is_best then copyfile fs1 file_path (path_join folder "model_best.pth") else fs1

/-- A pixel `(px, py)` lies inside at least one of the windows of side
`ws` whose top-left corners are listed in `pts`. -/
def covers (pts : List (Int × Int)) (ws px py : Int) : Prop :=
  ∃ p ∈ pts, p.1 ≤ px ∧ px < p.1 + ws ∧ p.2 ≤ py ∧ py < p.2 + ws

instance (pts : List (Int × Int)) (ws px py : Int) : Decidable (covers pts ws px py) :=
  List.decidableBEx _ pts

/-!
## Helper lemmas about the tiler loops
-/

theorem pyRange_nonneg (stop : Int) (step : Nat) :
    ∀ z ∈ pyRange stop step, 0 ≤ z := by
  intro z hz
  rcases List.mem_map.mp hz with ⟨i, _, rfl⟩
  exact Int.natCast_nonneg _

theorem pyRange_eq_nil (stop : Int) (step : Nat) (hstop : stop ≤ 0) (hstep : 1 ≤ step) :
    pyRange stop step = [] := by
  have h0 : stop.toNat = 0 := Int.toNat_of_nonpos hstop
  have : (stop.toNat + step - 1) / step = 0 := by
    rw [h0]
    exact Nat.div_eq_of_lt (by omega)
  simp [pyRange, this]

theorem pyRange_cons (stop : Int) (step : Nat) (hstop : 1 ≤ stop) (hstep : 1 ≤ step) :
    ∃ t, pyRange stop step = 0 :: t := by
  have h1 : 1 ≤ stop.toNat := by omega
  have hcount : ∃ k, (stop.toNat + step - 1) / step = k + 1 := by
    have : 1 ≤ (stop.toNat + step - 1) / step := by
      rw [Nat.le_div_iff_mul_le (by omega)]
      omega
    exact ⟨(stop.toNat + step - 1) / step - 1, by omega⟩
  rcases hcount with ⟨k, hk⟩
  refine ⟨(List.map Nat.succ (List.range k)).map (fun i => ((i * step : Nat) : Int)), ?_⟩
  rw [pyRange, hk, List.range_succ_eq_map]
  simp

theorem innerLoop_cons (h ws sx ex y : Int) (rest : List Int)
    (cuts : List SliceRect) (pts : List (Int × Int)) :
    innerLoop h ws sx ex (y :: rest) cuts pts =
      if lastY pts = some (min (y + ws) h - ws) then (cuts, pts)
      else innerLoop h ws sx ex rest
        (cuts ++ [⟨min (y + ws) h - ws, min (y + ws) h, sx, ex⟩])
        (pts ++ [(sx, min (y + ws) h - ws)]) := rfl

theorem outerLoop_cons (h w ws x : Int) (rest ys : List Int)
    (cuts : List SliceRect) (pts : List (Int × Int)) :
    outerLoop h w ws (x :: rest) ys cuts pts =
      if lastX pts = some (min (x + ws) w - ws) then (cuts, pts)
      else outerLoop h w ws rest ys
        (innerLoop h ws (min (x + ws) w - ws) (min (x + ws) w) ys cuts pts).1
        (innerLoop h ws (min (x + ws) w - ws) (min (x + ws) w) ys cuts pts).2 := rfl

theorem outerLoop_nil_ys (h w ws : Int) (xs : List Int)
    (cuts : List SliceRect) (pts : List (Int × Int)) :
    outerLoop h w ws xs [] cuts pts = (cuts, pts) := by
  induction xs generalizing cuts pts with
  | nil => rfl
  | cons x rest ih =>
    rw [outerLoop_cons]
    split
    · rfl
    · rw [innerLoop]
      exact ih cuts pts

theorem innerLoop_forall {P : Int × Int → Prop} {Q : SliceRect → Prop}
    (h ws sx ex : Int) (ys : List Int) (cuts : List SliceRect) (pts : List (Int × Int))
    (hcuts : ∀ r ∈ cuts, Q r) (hpts : ∀ p ∈ pts, P p)
    (hyQ : ∀ y ∈ ys, Q ⟨min (y + ws) h - ws, min (y + ws) h, sx, ex⟩)
    (hyP : ∀ y ∈ ys, P (sx, min (y + ws) h - ws)) :
    (∀ r ∈ (innerLoop h ws sx ex ys cuts pts).1, Q r) ∧
    (∀ p ∈ (innerLoop h ws sx ex ys cuts pts).2, P p) := by
  induction ys generalizing cuts pts with
  | nil => exact ⟨hcuts, hpts⟩
  | cons y rest ih =>
    rw [innerLoop_cons]
    split
    · exact ⟨hcuts, hpts⟩
    · refine ih _ _ ?_ ?_ (fun y hy => hyQ y (List.mem_cons_of_mem _ hy))
        (fun y hy => hyP y (List.mem_cons_of_mem _ hy))
      · intro r hr
        rcases List.mem_append.mp hr with hr | hr
        · exact hcuts r hr
        · rcases List.mem_singleton.mp hr with rfl
          exact hyQ y (List.mem_cons_self _ _)
      · intro p hp
        rcases List.mem_append.mp hp with hp | hp
        · exact hpts p hp
        · rcases List.mem_singleton.mp hp with rfl
          exact hyP y (List.mem_cons_self _ _)

theorem outerLoop_forall {P : Int × Int → Prop} {Q : SliceRect → Prop}
    (h w ws : Int) (xs ys : List Int) (cuts : List SliceRect) (pts : List (Int × Int))
    (hcuts : ∀ r ∈ cuts, Q r) (hpts : ∀ p ∈ pts, P p)
    (hxQ : ∀ x ∈ xs, ∀ y ∈ ys,
      Q ⟨min (y + ws) h - ws, min (y + ws) h, min (x + ws) w - ws, min (x + ws) w⟩)
    (hxP : ∀ x ∈ xs, ∀ y ∈ ys, P (min (x + ws) w - ws, min (y + ws) h - ws)) :
    (∀ r ∈ (outerLoop h w ws xs ys cuts pts).1, Q r) ∧
    (∀ p ∈ (outerLoop h w ws xs ys cuts pts).2, P p) := by
  induction xs generalizing cuts pts with
  | nil => exact ⟨hcuts, hpts⟩
  | cons x rest ih =>
    rw [outerLoop_cons]
    split
    · exact ⟨hcuts, hpts⟩
    · have hin := innerLoop_forall (P := P) (Q := Q) h ws
        (min (x + ws) w - ws) (min (x + ws) w) ys cuts pts hcuts hpts
        (hxQ x (List.mem_cons_self _ _)) (hxP x (List.mem_cons_self _ _))
      exact ih _ _ hin.1 hin.2
        (fun x' hx' => hxQ x' (List.mem_cons_of_mem _ hx'))
        (fun x' hx' => hxP x' (List.mem_cons_of_mem _ hx'))

theorem innerLoop_pts_prefix (h ws sx ex : Int) (ys : List Int)
    (cuts : List SliceRect) (pts : List (Int × Int)) :
    ∃ l, (innerLoop h ws sx ex ys cuts pts).2 = pts ++ l := by
  induction ys generalizing cuts pts with
  | nil => exact ⟨[], by simp [innerLoop]⟩
  | cons y rest ih =>
    rw [innerLoop_cons]
    split
    · exact ⟨[], by simp⟩
    · rcases ih (cuts ++ [⟨min (y + ws) h - ws, min (y + ws) h, sx, ex⟩])
        (pts ++ [(sx, min (y + ws) h - ws)]) with ⟨l, hl⟩
      exact ⟨(sx, min (y + ws) h - ws) :: l, by rw [hl, List.append_assoc]; rfl⟩

theorem outerLoop_pts_prefix (h w ws : Int) (xs ys : List Int)
    (cuts : List SliceRect) (pts : List (Int × Int)) :
    ∃ l, (outerLoop h w ws xs ys cuts pts).2 = pts ++ l := by
  induction xs generalizing cuts pts with
  | nil => exact ⟨[], by simp [outerLoop]⟩
  | cons x rest ih =>
    rw [outerLoop_cons]
    split
    · exact ⟨[], by simp⟩
    · rcases innerLoop_pts_prefix h ws (min (x + ws) w - ws) (min (x + ws) w) ys cuts pts
        with ⟨l1, hl1⟩
      rcases ih (innerLoop h ws (min (x + ws) w - ws) (min (x + ws) w) ys cuts pts).1
        (innerLoop h ws (min (x + ws) w - ws) (min (x + ws) w) ys cuts pts).2 with ⟨l2, hl2⟩
      exact ⟨l1 ++ l2, by rw [hl2, hl1, List.append_assoc]⟩

theorem sliceLen_of_bounds (n : Nat) (a b : Int) (ha : 0 ≤ a) (hab : a ≤ b)
    (hb : b ≤ (n : Int)) : sliceLen n a b = (b - a).toNat := by
  rw [sliceLen, sliceIndex, sliceIndex, if_neg (by omega), if_neg (by omega)]
  omega

/-!
## Claim theorems — window tiler
-/

/-- C1: the spec claims that for `windowSize ≤ min(H, W)` and
`stepSize = windowSize/2` the emitted windows cover every pixel of the
image.  The code violates this: on a 4×10 image with `windowSize = 4`,
`stepSize = 2`, the inner loop's dedup check compares the new column's
first `start_y` (0) against the *globally last* emitted start point —
which belongs to the previous column and also has `start_y = 0` because
`H = windowSize` — so every column after the first is dropped and only
the single tile at `(0, 0)` is produced, leaving all pixels with `x ≥ 4`
(e.g. the in-image pixel `(x, y) = (5, 0)`) uncovered.  This contradicts
the code's own comment ("stop if the current rectangle has been done
before": the rectangle at `(2, 0)` was never done) and the spec's
coverage contract, so the code is the bug. -/
theorem cut_windows_coverage_failure :
    cut_windows 4 10 4 (some 2) = some ([⟨0, 4, 0, 4⟩], [(0, 0)]) ∧
    (5 : Int) < 10 ∧ (0 : Int) < 4 ∧
    ¬ covers [((0 : Int), (0 : Int))] 4 5 0 := by decide

/-- C2: with `windowSize ≤ min(H, W)` and any positive `stepSize`, every
tile `cut_windows` returns is exactly `windowSize × windowSize` pixels
(its two slices each select `windowSize` indices) and every origin
`(start_x, start_y)` satisfies `0 ≤ start_x ≤ W - windowSize` and
`0 ≤ start_y ≤ H - windowSize`: no truncated tiles, none past the
boundary. -/
theorem cut_windows_tiles_exact (img_h img_w ws step : Nat)
    (hstep : 1 ≤ step) (hh : ws ≤ img_h) (hw : ws ≤ img_w)
    (res : List SliceRect × List (Int × Int))
    (hres : cut_windows img_h img_w ws (some step) = some res) :
    (∀ p ∈ res.2, 0 ≤ p.1 ∧ p.1 ≤ (img_w : Int) - ws ∧
      0 ≤ p.2 ∧ p.2 ≤ (img_h : Int) - ws) ∧
    (∀ r ∈ res.1, sliceLen img_h r.start_y r.end_y = ws ∧
      sliceLen img_w r.start_x r.end_x = ws) := by
  rw [cut_windows] at hres
  rw [Option.getD] at hres
  simp only [if_neg (by omega : ¬ step = 0), Option.some_inj] at hres
  subst hres
  have main := outerLoop_forall
    (P := fun p => 0 ≤ p.1 ∧ p.1 ≤ (img_w : Int) - ws ∧
      0 ≤ p.2 ∧ p.2 ≤ (img_h : Int) - ws)
    (Q := fun r => sliceLen img_h r.start_y r.end_y = ws ∧
      sliceLen img_w r.start_x r.end_x = ws)
    (img_h : Int) (img_w : Int) (ws : Int)
    (pyRange ((img_w : Int) - (step : Int)) step)
    (pyRange ((img_h : Int) - (step : Int)) step) [] []
    (by intro r hr; simp at hr) (by intro p hp; simp at hp)
    ?_ ?_
  · exact ⟨main.2, main.1⟩
  · intro x hx y hy
    have hx0 : 0 ≤ x := pyRange_nonneg _ _ x hx
    have hy0 : 0 ≤ y := pyRange_nonneg _ _ y hy
    dsimp only
    constructor
    · rw [sliceLen_of_bounds _ _ _ (by omega) (by omega) (by omega)]
      omega
    · rw [sliceLen_of_bounds _ _ _ (by omega) (by omega) (by omega)]
      omega
  · intro x hx y hy
    have hx0 : 0 ≤ x := pyRange_nonneg _ _ x hx
    have hy0 : 0 ≤ y := pyRange_nonneg _ _ y hy
    dsimp only
    refine ⟨by omega, by omega, by omega, by omega⟩

/-- Witness for C2 at `H = W = 10`, `windowSize = 4`, `stepSize = 2`. -/
theorem cut_windows_tiles_exact_witness :
    (1 ≤ 2 ∧ 4 ≤ 10 ∧
      cut_windows 10 10 4 (some 2) =
        some ((cut_windows 10 10 4 (some 2)).getD ([], []))) ∧
    ((∀ p ∈ ((cut_windows 10 10 4 (some 2)).getD ([], [])).2,
        0 ≤ p.1 ∧ p.1 ≤ (10 : Int) - 4 ∧ 0 ≤ p.2 ∧ p.2 ≤ (10 : Int) - 4) ∧
      (∀ r ∈ ((cut_windows 10 10 4 (some 2)).getD ([], [])).1,
        sliceLen 10 r.start_y r.end_y = 4 ∧ sliceLen 10 r.start_x r.end_x = 4)) :=
  ⟨⟨by decide, by decide, by decide⟩,
    cut_windows_tiles_exact 10 10 4 2 (by decide) (by decide) (by decide)
      ((cut_windows 10 10 4 (some 2)).getD ([], [])) (by decide)⟩

/-- C6 counterexample: the claim says that for `windowSize` strictly
greater than an image dimension the tiler raises an explicit
configuration error.  It does not: on a 3×3 image with
`windowSize = 5` (default `stepSize = 2`) `cut_windows` returns normally,
yielding one malformed tile whose origin is `(-2, -2)` and whose slice
`image[-2:3, -2:3]` selects only 2×2 pixels (negative-index slicing), not
5×5. -/
theorem cut_windows_oversize_counterexample :
    cut_windows 3 3 5 none = some ([⟨-2, 3, -2, 3⟩], [(-2, -2)]) ∧
    sliceLen 3 (-2) 3 = 2 ∧ ¬ (2 : Nat) = 5 := by decide

/-- C6 amended: `cut_windows` performs no validation of `windowSize`
against the image dimensions.  Whenever `windowSize` exceeds the image's
width or height (and the step is positive and small enough for the loops
to run at all), it does not fail: it returns a sequence of tiles whose
first origin coordinate is negative on the oversized axis — a malformed
tile — instead of raising a configuration error. -/
theorem cut_windows_oversize_negative_origin (img_h img_w ws step : Nat)
    (hstep : 1 ≤ step) (hsw : step < img_w) (hsh : step < img_h)
    (hover : img_w < ws ∨ img_h < ws) :
    ∃ pr, cut_windows img_h img_w ws (some step) = some pr ∧
      ∃ p ∈ pr.2, p.1 < 0 ∨ p.2 < 0 := by
  rcases pyRange_cons ((img_w : Int) - (step : Int)) step (by omega) hstep with ⟨xt, hxs⟩
  rcases pyRange_cons ((img_h : Int) - (step : Int)) step (by omega) hstep with ⟨yt, hys⟩
  refine ⟨(outerLoop (img_h : Int) (img_w : Int) (ws : Int)
      (pyRange ((img_w : Int) - (step : Int)) step)
      (pyRange ((img_h : Int) - (step : Int)) step) [] []), ?_, ?_⟩
  · rw [cut_windows]
    rw [Option.getD]
    simp only [if_neg (by omega : ¬ step = 0)]
  · rw [hxs, hys, outerLoop_cons]
    rw [if_neg (by simp [lastX])]
    rw [innerLoop_cons]
    rw [if_neg (by simp [lastY])]
    simp only [List.nil_append]
    set sx : Int := min (0 + (ws : Int)) (img_w : Int) - ws with hsx
    set sy : Int := min (0 + (ws : Int)) (img_h : Int) - ws with hsy
    rcases innerLoop_pts_prefix (img_h : Int) (ws : Int) sx (min (0 + (ws : Int)) (img_w : Int))
      yt [⟨sy, min (0 + (ws : Int)) (img_h : Int), sx, min (0 + (ws : Int)) (img_w : Int)⟩]
      [(sx, sy)] with ⟨l1, hl1⟩
    rcases outerLoop_pts_prefix (img_h : Int) (img_w : Int) (ws : Int) xt (0 :: yt)
      (innerLoop (img_h : Int) (ws : Int) sx (min (0 + (ws : Int)) (img_w : Int))
        yt [⟨sy, min (0 + (ws : Int)) (img_h : Int), sx, min (0 + (ws : Int)) (img_w : Int)⟩]
        [(sx, sy)]).1
      (innerLoop (img_h : Int) (ws : Int) sx (min (0 + (ws : Int)) (img_w : Int))
        yt [⟨sy, min (0 + (ws : Int)) (img_h : Int), sx, min (0 + (ws : Int)) (img_w : Int)⟩]
        [(sx, sy)]).2 with ⟨l2, hl2⟩
    refine ⟨(sx, sy), ?_, ?_⟩
    · rw [hl2, hl1]
      simp
    · rcases hover with hover | hover
      · left
        rw [hsx]
        omega
      · right
        rw [hsy]
        omega

/-- Witness for the amended C6 at a 3×3 image, `windowSize = 5`, `stepSize = 2`. -/
theorem cut_windows_oversize_negative_origin_witness :
    (1 ≤ 2 ∧ 2 < 3 ∧ 2 < 3 ∧ (3 < 5 ∨ 3 < 5)) ∧
    (∃ pr, cut_windows 3 3 5 (some 2) = some pr ∧
      ∃ p ∈ pr.2, p.1 < 0 ∨ p.2 < 0) :=
  ⟨⟨by decide, by decide, by decide, Or.inl (by decide)⟩,
    cut_windows_oversize_negative_origin 3 3 5 2 (by decide) (by decide) (by decide)
      (Or.inl (by decide))⟩

/-- C10: whenever `stepSize ≥ W` or `stepSize ≥ H` (and the step is
positive, otherwise Python's `range` itself raises), `cut_windows`
returns two empty lists — no tiles and no origin points — without
raising, even when `windowSize ≤ min(H, W)` would let a full window fit:
the loop ranges `range(0, W - stepSize, stepSize)` /
`range(0, H - stepSize, stepSize)` are empty or never append. -/
theorem cut_windows_step_too_large_empty (img_h img_w ws step : Nat)
    (hstep : 1 ≤ step) (hbig : img_w ≤ step ∨ img_h ≤ step) :
    cut_windows img_h img_w ws (some step) = some ([], []) := by
  rw [cut_windows, Option.getD]
  simp only [if_neg (show ¬ step = 0 by omega)]
  rcases hbig with hbig | hbig
  · have hx : pyRange ((img_w : Int) - (step : Int)) step = [] :=
      pyRange_eq_nil _ _ (by omega) hstep
    rw [hx]
    rfl
  · have hy : pyRange ((img_h : Int) - (step : Int)) step = [] :=
      pyRange_eq_nil _ _ (by omega) hstep
    rw [hy, outerLoop_nil_ys]

/-- Witness for C10 at `H = W = windowSize = stepSize = 4`: a full window
would fit exactly, yet nothing is emitted. -/
theorem cut_windows_step_too_large_empty_witness :
    (1 ≤ 4 ∧ (4 ≤ 4 ∨ 4 ≤ 4) ∧ 4 ≤ min 4 4) ∧
    cut_windows 4 4 4 (some 4) = some ([], []) :=
  ⟨⟨by decide, Or.inl (by decide), by decide⟩,
    cut_windows_step_too_large_empty 4 4 4 4 (by decide) (Or.inl (by decide))⟩

/-!
## Claim theorems — rectangle geometry
-/

/-- C7: for any two degenerate rectangles of zero area each,
`calc_union` returns `0` and the division in `calc_IOU` is a division by
zero — the function is unguarded and yields no defined zero result
(Python raises `ZeroDivisionError`, modelled by `none`). -/
theorem calc_IOU_degenerate_division_by_zero (r1 r2 : Rect)
    (h1 : calc_rect_size r1 = 0) (h2 : calc_rect_size r2 = 0) :
    calc_union r1 r2 = 0 ∧ calc_IOU r1 r2 = none := by
  have hint : calc_intersection r1 r2 = 0 := by
    simp only [calc_intersection]
    split
    · rfl
    · rename_i hn
      push_neg at hn
      rw [calc_rect_size] at h1
      rcases mul_eq_zero.mp h1 with hy | hx
      · apply mul_eq_zero.mpr
        right
        omega
      · apply mul_eq_zero.mpr
        left
        omega
  have hu : calc_union r1 r2 = 0 := by
    rw [calc_union, hint, h1, h2]
    decide
  exact ⟨hu, by rw [calc_IOU, if_pos hu]⟩

/-- Witness for C7 at two concrete degenerate rectangles. -/
theorem calc_IOU_degenerate_witness :
    (calc_rect_size ⟨0, 0, 0, 0⟩ = 0 ∧ calc_rect_size ⟨1, 1, 1, 3⟩ = 0) ∧
    (calc_union ⟨0, 0, 0, 0⟩ ⟨1, 1, 1, 3⟩ = 0 ∧
      calc_IOU ⟨0, 0, 0, 0⟩ ⟨1, 1, 1, 3⟩ = none) :=
  ⟨⟨by decide, by decide⟩,
    calc_IOU_degenerate_division_by_zero ⟨0, 0, 0, 0⟩ ⟨1, 1, 1, 3⟩ (by decide) (by decide)⟩

/-!
## Claim theorems — checkpoint saver
-/

theorem checkpoint_name_ne_best (e : Nat) : checkpoint_name e ≠ "model_best.pth" := by
  intro hcontra
  have hd := congrArg (fun s => s.data.length) hcontra
  simp [checkpoint_name, String.data_append] at hd

theorem path_join_ne (folder a b : String) (hab : a ≠ b) :
    path_join folder a ≠ path_join folder b := by
  intro hcontra
  apply hab
  have hd := congrArg String.data hcontra
  simp only [path_join, String.data_append, List.append_assoc] at hd
  have h1 := List.append_cancel_left hd
  have h2 := List.append_cancel_left h1
  exact String.ext h2

/-- C8: `save_checkpoint(model, is_best := True, epoch)` leaves the best
file holding exactly the content of that epoch's checkpoint file
(byte-for-byte copy), and a later `save_checkpoint(..., is_best := False,
epoch')` writes only the file `checkpoint_epoch_<epoch'>.pt` — every other
path, in particular the best file, is unchanged. -/
theorem save_checkpoint_best_spec {α : Type} (folder : String) (s1 s2 : α)
    (e e' : Nat) (fs : FileSys α) :
    save_checkpoint folder s1 true e fs (path_join folder "model_best.pth") =
      save_checkpoint folder s1 true e fs (path_join folder (checkpoint_name e)) ∧
    save_checkpoint folder s2 false e' (save_checkpoint folder s1 true e fs)
        (path_join folder "model_best.pth") =
      save_checkpoint folder s1 true e fs (path_join folder "model_best.pth") ∧
    (∀ p, p ≠ path_join folder (checkpoint_name e') →
      save_checkpoint folder s2 false e' (save_checkpoint folder s1 true e fs) p =
        save_checkpoint folder s1 true e fs p) := by
  have hne : ∀ d : Nat, path_join folder (checkpoint_name d) ≠ path_join folder "model_best.pth" :=
    fun d => path_join_ne folder _ _ (checkpoint_name_ne_best d)
  refine ⟨?_, ?_, ?_⟩
  · simp only [save_checkpoint, copyfile, writeFile, if_true]
    split <;> rfl
  · simp only [save_checkpoint, copyfile, writeFile, Bool.false_eq_true, if_false, if_true]
    rw [if_neg (Ne.symm (hne e'))]
  · intro p hp
    simp only [save_checkpoint, copyfile, writeFile, Bool.false_eq_true, if_false]
    rw [if_neg hp]

/-- Witness for C8 at a concrete run folder, epochs 0 and 1, and a path
different from epoch 1's checkpoint file. -/
theorem save_checkpoint_best_spec_witness :
    ("x" ≠ path_join "runs" (checkpoint_name 1)) ∧
    save_checkpoint "runs" 2 false 1 (save_checkpoint "runs" (1 : Nat) true 0 (fun _ => none)) "x" =
      save_checkpoint "runs" (1 : Nat) true 0 (fun _ => none) "x" :=
  ⟨by decide,
    (save_checkpoint_best_spec "runs" (1 : Nat) 2 0 1 (fun _ => none)).2.2 "x" (by decide)⟩

/-!
## Helper lemmas about the codec
-/

theorem insertSorted_perm (p : String × Nat) (l : List (String × Nat)) :
    List.Perm (insertSorted p l) (p :: l) := by
  induction l with
  | nil => exact List.Perm.refl _
  | cons q rest ih =>
    rw [insertSorted]
    split
    · exact List.Perm.refl _
    · exact List.Perm.trans (List.Perm.cons q ih) (List.Perm.swap p q rest)

theorem sortedItems_perm (m : List (String × Nat)) :
    List.Perm (sortedItems m) m := by
  induction m with
  | nil => exact List.Perm.refl _
  | cons p rest ih =>
    exact List.Perm.trans (insertSorted_perm p (sortedItems rest)) (List.Perm.cons p ih)

theorem writeFold_no_hit (test : Nat → String × Nat → Bool) (val : Nat → String × Nat → Nat)
    (l : List (String × Nat)) (i acc : Nat)
    (hno : ∀ j e, l[j]? = some e → test (i + j) e = false) :
    writeFold test val i l acc = acc := by
  induction l generalizing i acc with
  | nil => rfl
  | cons p rest ih =>
    rw [writeFold]
    have h0 : test i p = false := by
      have := hno 0 p List.getElem?_cons_zero
      rwa [Nat.add_zero] at this
    rw [h0, if_neg (by simp)]
    refine ih (i + 1) acc (fun j e hj => ?_)
    have := hno (j + 1) e (by rwa [List.getElem?_cons_succ])
    rwa [show i + (j + 1) = i + 1 + j by omega] at this

theorem writeFold_last_hit (test : Nat → String × Nat → Bool) (val : Nat → String × Nat → Nat)
    (l : List (String × Nat)) (i acc j : Nat) (e : String × Nat)
    (hj : l[j]? = some e) (ht : test (i + j) e = true)
    (hafter : ∀ j' e', j < j' → l[j']? = some e' → test (i + j') e' = false) :
    writeFold test val i l acc = val (i + j) e := by
  induction l generalizing i acc j with
  | nil => simp at hj
  | cons p rest ih =>
    cases j with
    | zero =>
      rw [List.getElem?_cons_zero, Option.some_inj] at hj
      subst hj
      rw [Nat.add_zero] at ht ⊢
      rw [writeFold, ht, if_pos rfl]
      refine writeFold_no_hit test val rest (i + 1) (val i p) (fun j' e' hj' => ?_)
      have := hafter (j' + 1) e' (by omega) (by rwa [List.getElem?_cons_succ])
      rwa [show i + (j' + 1) = i + 1 + j' by omega] at this
    | succ jj =>
      rw [List.getElem?_cons_succ] at hj
      rw [writeFold]
      have hrec := ih (i + 1) (if test i p then val i p else acc) jj hj
        (by rwa [show i + 1 + jj = i + (jj + 1) by omega])
        (fun j' e' hj' hje' => by
          have := hafter (j' + 1) e' (by omega) (by rwa [List.getElem?_cons_succ])
          rwa [show i + (j' + 1) = i + 1 + j' by omega] at this)
      rw [hrec, show i + 1 + jj = i + (jj + 1) by omega]

/-!
## Claim theorems — mask / colour codec
-/

/-- C3 counterexample: the round trip
`class_id_mask_to_colour_mask ∘ colour_mask_to_class_id_mask` does *not*
return the original colour for every pixel whose colour is a valid
mapping entry: with the single-class mapping `{"a": 300}` the pixel of
colour 300 comes back as `300 % 256 = 44`, because the second conversion
stores colours in a `uint8` array. -/
theorem colour_id_roundtrip_counterexample :
    (300 ∈ ([("a", 300)] : List (String × Nat)).map Prod.snd) ∧
    class_id_mask_to_colour_mask [("a", 300)]
      (colour_mask_to_class_id_mask [("a", 300)] 300) = 44 ∧
    ¬ (44 : Nat) = 300 := by decide

/-- C3 amended: the round trip
`colour_mask_to_class_id_mask` then `class_id_mask_to_colour_mask` is the
identity on every pixel whose colour is a valid mapping entry, *provided*
the mapping has at most 256 classes and the colour value fits in a byte
(`< 256`) — the two conversions store into `uint8` arrays, which bounds
both the class index and the colour. -/
theorem colour_id_roundtrip (m : List (String × Nat)) (p : Nat)
    (hlen : m.length ≤ 256) (hp : p < 256)
    (hmem : p ∈ m.map Prod.snd) :
    class_id_mask_to_colour_mask m (colour_mask_to_class_id_mask m p) = p := by
  have hperm := sortedItems_perm m
  have hlenL : (sortedItems m).length ≤ 256 := by rw [hperm.length_eq]; exact hlen
  have hmemL : p ∈ (sortedItems m).map Prod.snd := (hperm.map Prod.snd).mem_iff.mpr hmem
  obtain ⟨e0, he0mem, he0⟩ := List.mem_map.mp hmemL
  obtain ⟨j0, hj0lt, hj0⟩ := List.getElem_of_mem he0mem
  have hj0' : (sortedItems m)[j0]? = some e0 := by
    rw [List.getElem?_eq_some]
    exact ⟨hj0lt, hj0⟩
  have hP0 : colourHit (sortedItems m) p j0 := by
    rw [colourHit, hj0']
    simp [he0]
  set j := Nat.findGreatest (colourHit (sortedItems m) p) ((sortedItems m).length - 1)
    with hjdef
  have hPj : colourHit (sortedItems m) p j := Nat.findGreatest_spec (by omega) hP0
  have hjle : j ≤ (sortedItems m).length - 1 := Nat.findGreatest_le _
  obtain ⟨e, hLj, hep⟩ : ∃ e, (sortedItems m)[j]? = some e ∧ e.2 = p := by
    rw [colourHit] at hPj
    cases hLj : (sortedItems m)[j]? with
    | none => rw [hLj] at hPj; simp at hPj
    | some e =>
      rw [hLj] at hPj
      simp at hPj
      exact ⟨e, rfl, hPj⟩
  have hmax : ∀ k e', j < k → (sortedItems m)[k]? = some e' → e'.2 ≠ p := by
    intro k e' hk hk'
    by_cases hk2 : k ≤ (sortedItems m).length - 1
    · have hng := Nat.findGreatest_is_greatest hk hk2
      rw [colourHit, hk'] at hng
      simpa using hng
    · have hnone : (sortedItems m)[k]? = none := List.getElem?_eq_none (by omega)
      rw [hnone] at hk'
      simp at hk'
  have hjlt256 : j < 256 := by omega
  have hfwd : colour_mask_to_class_id_mask m p = j := by
    rw [colour_mask_to_class_id_mask]
    have hw := writeFold_last_hit (fun _ entry => p == entry.2) (fun i _ => i % 256)
      (sortedItems m) 0 0 j e hLj (by simp [hep])
      (fun j' e' hj' hje' => by simp [Ne.symm (hmax j' e' hj' hje')])
    rw [hw]
    show (0 + j) % 256 = j
    omega
  rw [hfwd, class_id_mask_to_colour_mask]
  have hw := writeFold_last_hit (fun i _ => j == i) (fun _ entry => entry.2 % 256)
    (sortedItems m) 0 0 j e hLj (by simp)
    (fun j' e' hj' _ => by simp [Nat.ne_of_lt hj'])
  rw [hw]
  show e.2 % 256 = p
  rw [hep]
  exact Nat.mod_eq_of_lt hp

/-- Witness for the amended C3 at the mapping `{"a": 7, "b": 3}` and
pixel colour 3. -/
theorem colour_id_roundtrip_witness :
    (([("a", 7), ("b", 3)] : List (String × Nat)).length ≤ 256 ∧ 3 < 256 ∧
      3 ∈ ([("a", 7), ("b", 3)] : List (String × Nat)).map Prod.snd) ∧
    class_id_mask_to_colour_mask [("a", 7), ("b", 3)]
      (colour_mask_to_class_id_mask [("a", 7), ("b", 3)] 3) = 3 :=
  ⟨⟨by decide, by decide, by decide⟩,
    colour_id_roundtrip [("a", 7), ("b", 3)] 3 (by decide) (by decide) (by decide)⟩

/-- C4 counterexample: the claim says that when several channels are on,
the pixel is assigned *the colour* of the highest-sorted on class.  With
mapping `{"a": 1, "b": 300}` and both channels on, the winning class is
`"b"` with colour 300, but the pixel is stored in a `uint8` array as
`300 % 256 = 44 ≠ 300`. -/
theorem one_hot_to_mask_counterexample :
    one_hot_to_mask [("a", 1), ("b", 300)] [1, 1] = 44 ∧ ¬ (44 : Nat) = 300 := by decide

/-- C4 amended: when several channels of a pixel are simultaneously `1`,
`one_hot_to_mask` resolves the conflict last-write-wins by ascending
class index, without raising: the pixel receives the colour of the
highest-sorted on class, reduced modulo 256 by the `uint8` store (hence
exactly that colour whenever it is below 256). -/
theorem one_hot_to_mask_last_write_wins (m : List (String × Nat)) (channels : List Nat)
    (j : Nat) (e : String × Nat)
    (hj : (sortedItems m)[j]? = some e)
    (hon : channels.getD j 0 = 1)
    (hafter : ∀ j' < (sortedItems m).length, j < j' → channels.getD j' 0 ≠ 1)
    (_hmulti : ∃ i < j, channels.getD i 0 = 1) :
    one_hot_to_mask m channels = e.2 % 256 := by
  rw [one_hot_to_mask]
  have hw := writeFold_last_hit (fun i _ => channels.getD i 0 == 1)
    (fun _ entry => entry.2 % 256) (sortedItems m) 0 0 j e hj
    (by
      show (channels.getD (0 + j) 0 == 1) = true
      rw [Nat.zero_add, hon]
      rfl)
    (fun j' e' hj' hje' => by
      have hlt : j' < (sortedItems m).length := (List.getElem?_eq_some.mp hje').1
      show (channels.getD (0 + j') 0 == 1) = false
      rw [Nat.zero_add, beq_eq_false_iff_ne]
      exact hafter j' hlt hj')
  rw [hw]

/-- Witness for the amended C4: mapping `{"a": 1, "b": 2}`, both channels
on; the pixel gets class `"b"`'s colour 2. -/
theorem one_hot_to_mask_last_write_wins_witness :
    ((sortedItems [("a", 1), ("b", 2)])[1]? = some ("b", 2) ∧
      ([1, 1] : List Nat).getD 1 0 = 1 ∧
      (∀ j' < (sortedItems [("a", 1), ("b", 2)]).length, 1 < j' →
        ([1, 1] : List Nat).getD j' 0 ≠ 1) ∧
      (∃ i < 1, ([1, 1] : List Nat).getD i 0 = 1)) ∧
    one_hot_to_mask [("a", 1), ("b", 2)] [1, 1] = 2 % 256 :=
  ⟨⟨by decide, by decide, by decide, ⟨0, by decide, by decide⟩⟩,
    one_hot_to_mask_last_write_wins [("a", 1), ("b", 2)] [1, 1] 1 ("b", 2)
      (by decide) (by decide) (by decide) ⟨0, by decide, by decide⟩⟩

/-- C9: `class_id_mask_to_colour_mask` and `one_hot_to_mask` write into
8-bit unsigned arrays, so a class whose colour is `c ≥ 256` has `c % 256`
stored for its pixels, not `c`; consequently the colour round trip
returns `c % 256 ≠ c` for such a colour — the codec round-trips only for
colour values in `[0, 255]`.  (`j` is the class's sorted index; the
`hafter` hypothesis says `j` is the last class with this colour, and
`j < 256` keeps the `uint8` class id faithful.) -/
theorem uint8_colour_truncation (m : List (String × Nat)) (j : Nat) (k : String) (c : Nat)
    (hj : (sortedItems m)[j]? = some (k, c))
    (hc : 256 ≤ c)
    (hj256 : j < 256)
    (hafter : ∀ j' < (sortedItems m).length, j < j' →
      (((sortedItems m)[j']?).getD ("", 0)).2 ≠ c) :
    class_id_mask_to_colour_mask m j = c % 256 ∧
    c % 256 ≠ c ∧
    (∀ channels : List Nat, channels.getD j 0 = 1 →
      (∀ j', j < j' → channels.getD j' 0 ≠ 1) →
      one_hot_to_mask m channels = c % 256) ∧
    class_id_mask_to_colour_mask m (colour_mask_to_class_id_mask m c) = c % 256 := by
  have hback : class_id_mask_to_colour_mask m j = c % 256 := by
    rw [class_id_mask_to_colour_mask]
    have hw := writeFold_last_hit (fun i _ => j == i) (fun _ entry => entry.2 % 256)
      (sortedItems m) 0 0 j (k, c) hj (by simp)
      (fun j' e' hj' _ => by simp [Nat.ne_of_lt hj'])
    rw [hw]
  refine ⟨hback, by omega, ?_, ?_⟩
  · intro channels hon hafterch
    rw [one_hot_to_mask]
    have hw := writeFold_last_hit (fun i _ => channels.getD i 0 == 1)
      (fun _ entry => entry.2 % 256) (sortedItems m) 0 0 j (k, c) hj
      (by
        show (channels.getD (0 + j) 0 == 1) = true
        rw [Nat.zero_add, hon]
        rfl)
      (fun j' e' hj' _ => by
        show (channels.getD (0 + j') 0 == 1) = false
        rw [Nat.zero_add, beq_eq_false_iff_ne]
        exact hafterch j' hj')
    rw [hw]
  · have hfwd : colour_mask_to_class_id_mask m c = j := by
      rw [colour_mask_to_class_id_mask]
      have hw := writeFold_last_hit (fun _ entry => c == entry.2) (fun i _ => i % 256)
        (sortedItems m) 0 0 j (k, c) hj (by simp)
        (fun j' e' hj' hje' => by
          have hlt : j' < (sortedItems m).length := (List.getElem?_eq_some.mp hje').1
          have hne := hafter j' hlt hj'
          rw [hje'] at hne
          simp at hne
          simp [Ne.symm hne])
      rw [hw]
      show (0 + j) % 256 = j
      omega
    rw [hfwd, hback]

/-- Witness for C9 at the single-class mapping `{"x": 300}`. -/
theorem uint8_colour_truncation_witness :
    ((sortedItems [("x", 300)])[0]? = some ("x", 300) ∧ 256 ≤ 300 ∧ 0 < 256 ∧
      (∀ j' < (sortedItems [("x", 300)]).length, 0 < j' →
        (((sortedItems [("x", 300)])[j']?).getD ("", 0)).2 ≠ 300)) ∧
    (class_id_mask_to_colour_mask [("x", 300)] 0 = 300 % 256 ∧
      300 % 256 ≠ 300 ∧
      (∀ channels : List Nat, channels.getD 0 0 = 1 →
        (∀ j', 0 < j' → channels.getD j' 0 ≠ 1) →
        one_hot_to_mask [("x", 300)] channels = 300 % 256) ∧
      class_id_mask_to_colour_mask [("x", 300)]
        (colour_mask_to_class_id_mask [("x", 300)] 300) = 300 % 256) :=
  ⟨⟨by decide, by decide, by decide, by decide⟩,
    uint8_colour_truncation [("x", 300)] 0 "x" 300
      (by decide) (by decide) (by decide) (by decide)⟩

/-!
## Claim theorems — class weight calculator
-/

theorem mapM_lookup_ok (stats : List (String × ℚ)) (l : List String)
    (hall : ∀ c ∈ l, (lookupShare stats c).isSome) :
    (l.mapM fun c =>
      match lookupShare stats c with
      | some s => Except.ok s
      | none => Except.error (PyError.keyError c)) =
    Except.ok (l.map (fun c => (lookupShare stats c).getD 0)) := by
  induction l with
  | nil => rfl
  | cons a rest ih =>
    rw [List.mapM_cons]
    obtain ⟨s, hs⟩ := Option.isSome_iff_exists.mp (hall a (List.mem_cons_self a rest))
    rw [ih (fun c hc => hall c (List.mem_cons_of_mem a hc))]
    rw [List.map_cons, hs]
    rfl

theorem mapM_lookup_error (stats : List (String × ℚ)) (l : List String) (c0 : String)
    (hfind : l.find? (fun c => (lookupShare stats c).isNone) = some c0) :
    (l.mapM fun c =>
      match lookupShare stats c with
      | some s => Except.ok s
      | none => Except.error (PyError.keyError c)) =
    Except.error (PyError.keyError c0) := by
  induction l with
  | nil => simp at hfind
  | cons a rest ih =>
    cases ha : lookupShare stats a with
    | none =>
      rw [List.find?_cons_of_pos _ (by simp [ha])] at hfind
      rw [Option.some_inj] at hfind
      subst hfind
      rw [List.mapM_cons, ha]
      rfl
    | some s =>
      rw [List.find?_cons_of_neg _ (by simp [ha])] at hfind
      rw [List.mapM_cons, ha]
      rw [ih hfind]
      rfl

/-- C5 counterexample: the claim says a class missing from the stats
produces a clear "missing class statistics" error rather than a generic
key error.  The code evaluates `stats[c]["share"]` directly, so the
failure is precisely Python's bare `KeyError(c)` — the generic lookup
error carrying only the class name. -/
theorem calculate_class_weights_counterexample :
    calculate_class_weights [] [("a", 1)] (101 / 100) =
      Except.error (PyError.keyError "a") := by
  rw [calculate_class_weights, sharesFor,
    mapM_lookup_error [] (sortedClassNames [("a", 1)]) "a" (by decide)]
  rfl

/-- C5 amended: when every class of the mapping has a stats entry,
`calculate_class_weights` returns one weight per class, in sorted
class-name order, equal to `1 / ln(modifier + share)` of that class;
when some class has no stats entry it fails with the generic
`KeyError(<class name>)` of the first missing class in sorted order — not
with a dedicated "missing class statistics" error. -/
theorem calculate_class_weights_spec (stats : List (String × ℚ))
    (m : List (String × Nat)) (modifier : ℝ) :
    (∀ c0, (sortedClassNames m).find? (fun c => (lookupShare stats c).isNone) = some c0 →
      calculate_class_weights stats m modifier = Except.error (PyError.keyError c0)) ∧
    ((∀ c ∈ sortedClassNames m, (lookupShare stats c).isSome) →
      calculate_class_weights stats m modifier =
        Except.ok ((sortedClassNames m).map
          (fun c => 1 / Real.log (modifier + (((lookupShare stats c).getD 0 : ℚ) : ℝ))))) := by
  constructor
  · intro c0 h
    rw [calculate_class_weights, sharesFor, mapM_lookup_error stats _ c0 h]
    rfl
  · intro hall
    rw [calculate_class_weights, sharesFor, mapM_lookup_ok stats _ hall]
    show Except.ok (List.map _ (List.map _ _)) = _
    rw [List.map_map]
    rfl

/-- Witness for C5: one class `"a"` with share 1; the weight list is
`[1 / ln(modifier + 1)]`. -/
theorem calculate_class_weights_spec_witness :
    (∀ c ∈ sortedClassNames [("a", 0)], (lookupShare [("a", (1 : ℚ))] c).isSome) ∧
    calculate_class_weights [("a", (1 : ℚ))] [("a", 0)] ((101 : ℝ) / 100) =
      Except.ok ((sortedClassNames [("a", 0)]).map
        (fun c => 1 / Real.log ((101 : ℝ) / 100 +
          (((lookupShare [("a", (1 : ℚ))] c).getD 0 : ℚ) : ℝ)))) :=
  ⟨by decide,
    (calculate_class_weights_spec [("a", (1 : ℚ))] [("a", 0)] ((101 : ℝ) / 100)).2 (by decide)⟩
